import Mathlib

/-!
Verification of the multivariate feature-selection core of fsspark
(src/fslite/fs/multivariate.py) against its specification.

The feature-correlation pipeline is embedded from multivariate_correlation_selector:
the (possibly irrational) float correlation matrix produced by np.corrcoef /
scipy.stats.spearmanr is abstracted as a function `corr : Nat → Nat → Rat` over `n`
features; everything downstream of line 144 (`corr_matrix = np.abs(corr_matrix)`)
is translated operation by operation.  The variance filter is embedded from
multivariate_variance_selector over an explicit row-major rational matrix.
`find_maximal_independent_set` and `percentile_rank` live in fslite/fs/utils,
which is not part of the sources; they are modelled from the specification
(sections 4.2a and 4.3) and marked as such.
-/

/-- Entrywise absolute value, `np.abs(corr_matrix)` (multivariate.py line 144). -/
def absCorr (corr : ℕ → ℕ → ℚ) (i j : ℕ) : ℚ := |corr i j|

/-- One entry of `np.triu(corr_matrix, k=1)` (line 147): the strict upper triangle
is kept, every entry with `i ≥ j` is replaced by 0. -/
def triuEntry (corr : ℕ → ℕ → ℚ) (i j : ℕ) : ℚ := if i < j then corr i j else 0

/-- Lines 147-148: `np.column_stack(np.where(np.triu(corr_matrix, k=1) > selection_threshold))`.
`np.where` scans the boolean mask in row-major order, so the pair list enumerates
`i` ascending and, inside each row, `j` ascending.  Note the comparison is applied
to the `triu`-masked matrix, so for a negative threshold the zeroed entries
(diagonal and lower triangle) also pass the test. -/
def correlatedPairs (n : ℕ) (corr : ℕ → ℕ → ℚ) (t : ℚ) : List (ℕ × ℕ) :=
  (List.range n).flatMap (fun i =>
    (List.range n).filterMap (fun j =>
      if triuEntry (absCorr corr) i j > t then some (i, j) else none))

/-- Line 154: `col_means = np.mean(corr_matrix, axis=1)` — the mean of row `i`
of the absolute correlation matrix. -/
def colMeans (n : ℕ) (corr : ℕ → ℕ → ℚ) (i : ℕ) : ℚ :=
  ((List.range n).map (absCorr corr i)).sum / n

/-- Lines 156-159: the endpoint the strict loop adds for one correlated pair:
`i` if `col_means[i] > col_means[j]`, else `j`. -/
def strictPick (n : ℕ) (corr : ℕ → ℕ → ℚ) (p : ℕ × ℕ) : ℕ :=
  if colMeans n corr p.1 > colMeans n corr p.2 then p.1 else p.2

/-- Lines 151-159: the strict-mode `index_to_remove` set, built by folding the
per-pair choice over the correlated pairs. -/
def strictRemoveSet (n : ℕ) (corr : ℕ → ℕ → ℚ) (t : ℚ) : Finset ℕ :=
  (correlatedPairs n corr t).foldl (fun s p => insert (strictPick n corr p) s) ∅

/-- Neighbours of `v` in the edge list: every `u` with `(v,u)` or `(u,v)` an edge
(the first component is checked first, as in an adjacency scan). -/
def neighborList (edges : List (ℕ × ℕ)) (v : ℕ) : List ℕ :=
  edges.filterMap (fun e =>
    if e.1 = v then some e.2 else if e.2 = v then some e.1 else none)

/-- Degree of `v` counting only neighbours still under consideration. -/
def remainingDegree (edges : List (ℕ × ℕ)) (nodes : List ℕ) (v : ℕ) : ℕ :=
  ((neighborList edges v).filter (fun u => decide (u ∈ nodes))).length

/-- Choose the node minimising `(degree, index)` lexicographically: minimum
remaining degree, lowest index on ties. -/
def pickMin (deg : ℕ → ℕ) : List ℕ → ℕ → ℕ
  | [], b => b
  | v :: vs, b =>
      pickMin deg vs (if deg v < deg b ∨ (deg v = deg b ∧ v < b) then v else b)

/-- Greedy maximal-independent-set loop: pick a node of minimum remaining degree
(lowest index breaking ties), add it to the accumulator, drop it and its
neighbours, repeat.  Fuel bounds the iteration count; `nodes.length` is enough
because every round removes the chosen node. -/
def misLoop (edges : List (ℕ × ℕ)) : ℕ → List ℕ → List ℕ → List ℕ
  | 0, _, acc => acc
  | _ + 1, [], acc => acc
  | fuel + 1, v :: vs, acc =>
      let best := pickMin (remainingDegree edges (v :: vs)) vs v
      let rest := (v :: vs).filter
        (fun u => decide (u ≠ best) && decide (u ∉ neighborList edges best))
      misLoop edges fuel rest (best :: acc)

/-- Node universe of an edge list: endpoints in order of first appearance. -/
def nodeUniverse (edges : List (ℕ × ℕ)) : List ℕ :=
  (edges.flatMap (fun e => [e.1, e.2])).dedup

/-- Modelled from the spec: `find_maximal_independent_set` lives in
fslite/fs/utils.py, which is not among the sources.  Spec section 4.2a: greedy
strategy repeatedly picking a node of minimum remaining degree (lowest index
wins ties), adding it to the independent set and discarding it with its
neighbours; with `keep = false` the complement of the independent set within
the node universe (nodes occurring in at least one edge) is returned — nodes
in no edge are never part of the universe. -/
def find_maximal_independent_set (edges : List (ℕ × ℕ)) (keep : Bool) : List ℕ :=
  let nodes := nodeUniverse edges
  let mis := misLoop edges nodes.length nodes []
  if keep then mis else nodes.filter (fun v => decide (v ∉ mis))

/-- Line 162: the approximate-mode `index_to_remove`
(`find_maximal_independent_set(correlated_pairs, keep=False)`). -/
def approxRemoveSet (n : ℕ) (corr : ℕ → ℕ → ℚ) (t : ℚ) : Finset ℕ :=
  (find_maximal_independent_set (correlatedPairs n corr t) false).toFinset

/-- Line 169: the selected indices in strict mode — all feature indices not in
the remove set, in ascending order. -/
def strictSelected (n : ℕ) (corr : ℕ → ℕ → ℚ) (t : ℚ) : List ℕ :=
  (List.range n).filter (fun i => decide (i ∉ strictRemoveSet n corr t))

/-- Line 169 for approximate mode. -/
def approxSelected (n : ℕ) (corr : ℕ → ℕ → ℚ) (t : ℚ) : List ℕ :=
  (List.range n).filter (fun i => decide (i ∉ approxRemoveSet n corr t))

deriving instance DecidableEq for Except

/-- Result of one run of the selector, together with whether the correlation
matrix had been computed by the time the run ended (observable evaluation
order, needed to check the fail-fast requirement). -/
structure SelectorRun where
  corrComputed : Bool
  result : Except String (List ℕ)

/-- multivariate_correlation_selector (lines 109-171).  `corr` abstracts the raw
correlation matrix the chosen statistic would produce on the feature matrix;
`n` is the number of feature columns.  Control flow follows the source:
`corr_method` is checked when the correlation matrix is about to be computed
(lines 134-141), so an invalid method errors with no matrix computed; the
`selection_mode` check (lines 152-166) happens only after the matrix and the
correlated pairs exist.  Degenerate feature counts, per the libraries the
source calls:
* one column, either method: `np.corrcoef` on one variable hits the
  scalar-covariance path of its `except ValueError` branch and returns a
  0-dimensional array (`scipy.stats.spearmanr` likewise returns a
  0-dimensional statistic via `np.corrcoef` on the ranked column), after which
  `np.triu` fails with `TypeError` — `tri(*m.shape[-2:], ...)` receives no `N`
  argument for a 0-d input — so the run errors after the matrix was computed;
* exactly two columns with spearman: `spearmanr` hits its
  `rs.shape == (2, 2)` backwards-compatibility branch and returns the scalar
  `rs[1, 0]`, so `np.triu` raises the same `TypeError`, again after the
  statistic was computed;
* zero columns with spearman: `np.apply_along_axis(rankdata, 0, a)` raises
  `ValueError` (an iteration dimension is 0) inside `spearmanr`, so the run
  errors with no correlation matrix computed (zero columns with pearson is
  fine: an empty matrix flows through and every feature of the empty range is
  selected). -/
def multivariate_correlation_selector (n : ℕ) (corr : ℕ → ℕ → ℚ)
    (selection_mode : String) (selection_threshold : ℚ)
    (corr_method : String) : SelectorRun :=
  if corr_method = "pearson" ∨ corr_method = "spearman" then
    if corr_method = "spearman" ∧ n = 0 then
      ⟨false, .error "ValueError: cannot apply_along_axis when any iteration dimensions are 0"⟩
    else if n = 1 ∨ (corr_method = "spearman" ∧ n = 2) then
      ⟨true, .error "TypeError: np.triu on 0-d correlation matrix"⟩
    else if selection_mode = "strict" then
      ⟨true, .ok (strictSelected n corr selection_threshold)⟩
    else if selection_mode = "approximate" then
      ⟨true, .ok (approxSelected n corr selection_threshold)⟩
    else
      ⟨true, .error "Unsupported selection mode"⟩
  else
    ⟨false, .error "Unsupported correlation method"⟩

/-- Column `j` of a row-major matrix. -/
def column (m : List (List ℚ)) (j : ℕ) : List ℚ := m.map (fun row => row.getD j 0)

/-- Arithmetic mean of a list. -/
def listMean (xs : List ℚ) : ℚ := xs.sum / xs.length

/-- Population variance, `np.var` with the default `ddof=0`. -/
def popVar (xs : List ℚ) : ℚ := listMean (xs.map (fun x => (x - listMean xs) ^ 2))

/-- Number of feature columns of a row-major matrix. -/
def nFeatures (m : List (List ℚ)) : ℕ := (m.headD []).length

/-- Modelled from the spec: `percentile_rank` lives in fslite/fs/utils.py, not
among the sources.  Spec section 4.3: the percentile rank of entry `i` is the
fraction of entries `≤` it, on a 0-100 scale, ties sharing a rank. -/
def percentile_rank (xs : List ℚ) (i : ℕ) : ℚ :=
  100 * ((xs.filter (fun y => decide (y ≤ xs.getD i 0))).length : ℚ) / xs.length

/-- multivariate_variance_selector (lines 174-217): per-column population
variance, then either the `k_best` rule (keep variance strictly above the
threshold) or the `percentile` rule (keep percentile rank strictly above the
threshold); any other mode errors. -/
def multivariate_variance_selector (m : List (List ℚ))
    (selection_mode : String) (selection_threshold : ℚ) :
    Except String (List ℕ) :=
  if selection_mode = "k_best" then
    .ok ((List.range (nFeatures m)).filter
      (fun j => decide (popVar (column m j) > selection_threshold)))
  else if selection_mode = "percentile" then
    .ok ((List.range (nFeatures m)).filter
      (fun j => decide (percentile_rank
        ((List.range (nFeatures m)).map (fun k => popVar (column m k))) j >
          selection_threshold)))
  else
    .error "Unsupported selection mode"

-- Concrete matrices used in witnesses and counterexamples.

/-- Entry accessor for a concrete row-major rational matrix. -/
def matGet (m : List (List ℚ)) (i j : ℕ) : ℚ := (m.getD i []).getD j 0

/-- A 3-feature correlation matrix: features 0 and 1 strongly correlated
(0.9), feature 2 weakly tied to feature 0 (0.5). -/
def corrW : ℕ → ℕ → ℚ :=
  matGet [[1, 9/10, 1/2], [9/10, 1, 0], [1/2, 0, 1]]

/-- A 2-feature correlation matrix with an exact tie in row means. -/
def corrTie : ℕ → ℕ → ℚ := matGet [[1, 9/10], [9/10, 1]]

/-- The (conceptual) 1-feature correlation matrix: a single self-correlation. -/
def corrOne : ℕ → ℕ → ℚ := fun _ _ => 1

/-- A diagonal 3-feature correlation matrix: no off-diagonal correlation. -/
def corrDiag : ℕ → ℕ → ℚ := fun i j => if i = j then 1 else 0

/-- The 6-feature correlation matrix of the approximate-mode monotonicity
counterexample.  Diagonally dominant with unit diagonal, hence positive
semidefinite: a genuine Pearson correlation matrix. -/
def corr6 : ℕ → ℕ → ℚ :=
  matGet [[1, 3/20, 1/10, 1/10, 0, 3/20],
          [3/20, 1, 1/10, 3/20, 0, 0],
          [1/10, 1/10, 1, 3/20, 3/20, 0],
          [1/10, 3/20, 3/20, 1, 3/20, 3/20],
          [0, 0, 3/20, 3/20, 1, 0],
          [3/20, 0, 0, 3/20, 0, 1]]

/-- The run produced an index list (as opposed to raising). -/
def returnsIndexList (r : SelectorRun) : Prop := ∃ l, r.result = Except.ok l

/-- Adjacency in an edge list (either orientation). -/
def Adj (edges : List (ℕ × ℕ)) (a b : ℕ) : Prop :=
  (a, b) ∈ edges ∨ (b, a) ∈ edges

theorem Adj.symm {edges : List (ℕ × ℕ)} {a b : ℕ} (h : Adj edges a b) :
    Adj edges b a :=
  h.elim Or.inr Or.inl

theorem mem_correlatedPairs {n : ℕ} {corr : ℕ → ℕ → ℚ} {t : ℚ} {i j : ℕ} :
    (i, j) ∈ correlatedPairs n corr t ↔
      i < n ∧ j < n ∧ triuEntry (absCorr corr) i j > t := by
  unfold correlatedPairs
  simp only [List.mem_flatMap, List.mem_filterMap, List.mem_range]
  constructor
  · rintro ⟨a, ha, b, hb, hab⟩
    by_cases hc : triuEntry (absCorr corr) a b > t
    · rw [if_pos hc] at hab
      obtain ⟨rfl, rfl⟩ := Prod.mk.injEq .. ▸ Option.some.inj hab
      exact ⟨ha, hb, hc⟩
    · rw [if_neg hc] at hab
      exact absurd hab (Option.noConfusion)
  · rintro ⟨hi, hj, h⟩
    exact ⟨i, hi, j, hj, by rw [if_pos h]⟩

/-- For a nonnegative threshold the `triu` zeroes never pass the comparison, so
membership in the correlated-pair list is exactly the strict-upper-triangle,
above-threshold condition. -/
theorem mem_correlatedPairs_of_nonneg {n : ℕ} {corr : ℕ → ℕ → ℚ} {t : ℚ}
    (ht : 0 ≤ t) {i j : ℕ} :
    (i, j) ∈ correlatedPairs n corr t ↔ i < j ∧ j < n ∧ |corr i j| > t := by
  rw [mem_correlatedPairs]
  unfold triuEntry absCorr
  constructor
  · rintro ⟨hi, hj, hgt⟩
    by_cases hij : i < j
    · rw [if_pos hij] at hgt
      exact ⟨hij, hj, hgt⟩
    · rw [if_neg hij] at hgt
      exact absurd hgt (not_lt.2 ht)
  · rintro ⟨hij, hj, hgt⟩
    exact ⟨lt_trans hij hj, hj, by rw [if_pos hij]; exact hgt⟩

theorem correlatedPairs_anti {n : ℕ} {corr : ℕ → ℕ → ℚ} {t1 t2 : ℚ}
    (h : t1 ≤ t2) :
    ∀ p ∈ correlatedPairs n corr t2, p ∈ correlatedPairs n corr t1 := by
  rintro ⟨i, j⟩ hp
  rw [mem_correlatedPairs] at hp ⊢
  exact ⟨hp.1, hp.2.1, lt_of_le_of_lt h hp.2.2⟩

theorem mem_foldl_insert (f : ℕ × ℕ → ℕ) (l : List (ℕ × ℕ)) (s : Finset ℕ)
    (x : ℕ) :
    x ∈ l.foldl (fun s p => insert (f p) s) s ↔ x ∈ s ∨ ∃ p ∈ l, f p = x := by
  induction l generalizing s with
  | nil => simp
  | cons a l ih =>
      simp only [List.foldl_cons, ih, Finset.mem_insert, List.mem_cons]
      constructor
      · rintro ((rfl | h) | ⟨p, hp, rfl⟩)
        · exact Or.inr ⟨a, Or.inl rfl, rfl⟩
        · exact Or.inl h
        · exact Or.inr ⟨p, Or.inr hp, rfl⟩
      · rintro (h | ⟨p, (rfl | hp), rfl⟩)
        · exact Or.inl (Or.inr h)
        · exact Or.inl (Or.inl rfl)
        · exact Or.inr ⟨p, hp, rfl⟩

theorem mem_strictRemoveSet {n : ℕ} {corr : ℕ → ℕ → ℚ} {t : ℚ} {x : ℕ} :
    x ∈ strictRemoveSet n corr t ↔
      ∃ p ∈ correlatedPairs n corr t, strictPick n corr p = x := by
  unfold strictRemoveSet
  rw [mem_foldl_insert]
  simp

theorem strictRemoveSet_eq_image (n : ℕ) (corr : ℕ → ℕ → ℚ) (t : ℚ) :
    strictRemoveSet n corr t =
      ((correlatedPairs n corr t).map (strictPick n corr)).toFinset := by
  ext x
  rw [mem_strictRemoveSet, List.mem_toFinset, List.mem_map]

theorem strictPick_eq_or (n : ℕ) (corr : ℕ → ℕ → ℚ) (p : ℕ × ℕ) :
    strictPick n corr p = p.1 ∨ strictPick n corr p = p.2 := by
  unfold strictPick
  split
  · exact Or.inl rfl
  · exact Or.inr rfl

theorem pickMin_mem (deg : ℕ → ℕ) (l : List ℕ) (b : ℕ) :
    pickMin deg l b ∈ b :: l := by
  induction l generalizing b with
  | nil => exact List.mem_singleton.2 rfl
  | cons v vs ih =>
      rw [pickMin]
      split
      · exact List.mem_cons.2 (Or.inr (ih v))
      · rcases List.mem_cons.1 (ih b) with h | h
        · exact List.mem_cons.2 (Or.inl h)
        · exact List.mem_cons.2 (Or.inr (List.mem_cons.2 (Or.inr h)))

theorem adj_mem_neighborList {edges : List (ℕ × ℕ)} {a b : ℕ} (hne : a ≠ b)
    (h : Adj edges a b) : b ∈ neighborList edges a := by
  unfold neighborList
  rw [List.mem_filterMap]
  rcases h with h | h
  · exact ⟨(a, b), h, by rw [if_pos rfl]⟩
  · refine ⟨(b, a), h, ?_⟩
    rw [if_neg (Ne.symm hne), if_pos rfl]

/-- One step of the greedy loop preserves the two invariants: accumulated
nodes are non-adjacent to all remaining nodes, and pairwise non-adjacent. -/
theorem misStep_invariants (edges : List (ℕ × ℕ)) (nodes acc : List ℕ)
    (best : ℕ) (hbest : best ∈ nodes)
    (h1 : ∀ a ∈ acc, ∀ u ∈ nodes, ¬ Adj edges a u)
    (h2 : ∀ a ∈ acc, ∀ b ∈ acc, a ≠ b → ¬ Adj edges a b) :
    (∀ a ∈ best :: acc,
      ∀ u ∈ nodes.filter
        (fun u => decide (u ≠ best) && decide (u ∉ neighborList edges best)),
        ¬ Adj edges a u) ∧
    (∀ a ∈ best :: acc, ∀ b ∈ best :: acc, a ≠ b → ¬ Adj edges a b) := by
  constructor
  · intro a ha u hu
    rw [List.mem_filter, Bool.and_eq_true, decide_eq_true_eq,
      decide_eq_true_eq] at hu
    obtain ⟨humem, hune, hunb⟩ := hu
    rcases List.mem_cons.1 ha with ha1 | ha1
    · rw [ha1]
      intro hadj
      exact hunb (adj_mem_neighborList (Ne.symm hune) hadj)
    · exact h1 a ha1 u humem
  · intro a ha b hb hne
    rcases List.mem_cons.1 ha with ha1 | ha1
    · rcases List.mem_cons.1 hb with hb1 | hb1
      · exact absurd (ha1.trans hb1.symm) hne
      · rw [ha1]
        intro hadj
        exact h1 b hb1 best hbest hadj.symm
    · rcases List.mem_cons.1 hb with hb1 | hb1
      · rw [hb1]
        exact h1 a ha1 best hbest
      · exact h2 a ha1 b hb1 hne

/-- The greedy loop only ever produces pairwise non-adjacent nodes. -/
theorem misLoop_indep (edges : List (ℕ × ℕ)) (fuel : ℕ) :
    ∀ (nodes acc : List ℕ),
      (∀ a ∈ acc, ∀ u ∈ nodes, ¬ Adj edges a u) →
      (∀ a ∈ acc, ∀ b ∈ acc, a ≠ b → ¬ Adj edges a b) →
      ∀ a ∈ misLoop edges fuel nodes acc, ∀ b ∈ misLoop edges fuel nodes acc,
        a ≠ b → ¬ Adj edges a b := by
  induction fuel with
  | zero =>
      intro nodes acc _ h2
      simpa only [misLoop] using h2
  | succ fuel ih =>
      intro nodes acc h1 h2
      match nodes with
      | [] => simpa only [misLoop] using h2
      | v :: vs =>
          rw [misLoop]
          obtain ⟨h1s, h2s⟩ := misStep_invariants edges (v :: vs) acc
            (pickMin (remainingDegree edges (v :: vs)) vs v)
            (pickMin_mem (remainingDegree edges (v :: vs)) vs v) h1 h2
          exact ih _ _ h1s h2s

/-- The computed maximal independent set (the `keep = true` output) is an
independent set of the edge list. -/
theorem find_mis_keep_indep (edges : List (ℕ × ℕ)) :
    ∀ a ∈ find_maximal_independent_set edges true,
      ∀ b ∈ find_maximal_independent_set edges true, a ≠ b → ¬ Adj edges a b :=
  misLoop_indep edges (nodeUniverse edges).length (nodeUniverse edges) []
    (by intro a ha; exact absurd ha (List.not_mem_nil a))
    (by intro a ha; exact absurd ha (List.not_mem_nil a))

theorem mem_nodeUniverse_left {edges : List (ℕ × ℕ)} {i j : ℕ}
    (h : (i, j) ∈ edges) : i ∈ nodeUniverse edges := by
  unfold nodeUniverse
  rw [List.mem_dedup, List.mem_flatMap]
  exact ⟨(i, j), h, List.mem_cons_self i [j]⟩

theorem mem_nodeUniverse_right {edges : List (ℕ × ℕ)} {i j : ℕ}
    (h : (i, j) ∈ edges) : j ∈ nodeUniverse edges := by
  unfold nodeUniverse
  rw [List.mem_dedup, List.mem_flatMap]
  exact ⟨(i, j), h, List.mem_cons.2 (Or.inr (List.mem_singleton.2 rfl))⟩

/-- A node of the universe that is not removed lies in the independent set. -/
theorem mem_mis_of_not_removed {edges : List (ℕ × ℕ)} {v : ℕ}
    (hv : v ∈ nodeUniverse edges)
    (hnr : v ∉ find_maximal_independent_set edges false) :
    v ∈ find_maximal_independent_set edges true := by
  by_contra hmis
  apply hnr
  show v ∈ List.filter _ (nodeUniverse edges)
  rw [List.mem_filter, decide_eq_true_eq]
  exact ⟨hv, hmis⟩


theorem selector_strict_run (n : ℕ) (corr : ℕ → ℕ → ℚ) (t : ℚ) (hn : n ≠ 1) :
    multivariate_correlation_selector n corr "strict" t "pearson" =
      ⟨true, Except.ok (strictSelected n corr t)⟩ := by
  unfold multivariate_correlation_selector
  rw [if_pos (Or.inl rfl), if_neg (fun h => absurd h.1 (by decide)),
    if_neg (fun h => h.elim hn (fun h2 => absurd h2.1 (by decide))), if_pos rfl]

theorem selector_approx_run (n : ℕ) (corr : ℕ → ℕ → ℚ) (t : ℚ) (hn : n ≠ 1) :
    multivariate_correlation_selector n corr "approximate" t "pearson" =
      ⟨true, Except.ok (approxSelected n corr t)⟩ := by
  unfold multivariate_correlation_selector
  rw [if_pos (Or.inl rfl), if_neg (fun h => absurd h.1 (by decide)),
    if_neg (fun h => h.elim hn (fun h2 => absurd h2.1 (by decide))),
    if_neg (by decide : ¬("approximate" = "strict")), if_pos rfl]

/-- With spearman and exactly two features the run errors even though every
parameter is valid — scipy returns the scalar rs[1,0] and np.triu raises —
and with zero features spearmanr itself raises before any statistic exists. -/
theorem spearman_degenerate_runs :
    (multivariate_correlation_selector 2 corrTie "strict" (3/4) "spearman").result =
      Except.error "TypeError: np.triu on 0-d correlation matrix" ∧
    (multivariate_correlation_selector 2 corrTie "strict" (3/4) "spearman").corrComputed = true ∧
    (multivariate_correlation_selector 0 corrTie "strict" (3/4) "spearman").corrComputed = false :=
  ⟨rfl, rfl, rfl⟩

theorem correlatedPairs_eq_nil (n : ℕ) (corr : ℕ → ℕ → ℚ) (t : ℚ) (hn : n ≠ 1)
    (h : ∀ i j, i < n → j < n → i ≠ j → ¬(|corr i j| > t)) :
    correlatedPairs n corr t = [] := by
  rcases Nat.eq_zero_or_pos n with hz | hpos
  · rw [hz]
    rfl
  · have ht : 0 ≤ t := by
      by_contra hlt
      rw [not_le] at hlt
      exact h 0 1 (by omega) (by omega) (by omega)
        (lt_of_lt_of_le hlt (abs_nonneg (corr 0 1)))
    rw [List.eq_nil_iff_forall_not_mem]
    rintro ⟨i, j⟩ hp
    rw [mem_correlatedPairs_of_nonneg ht] at hp
    exact h i j (lt_trans hp.1 hp.2.1) hp.2.1 (Nat.ne_of_lt hp.1) hp.2.2

theorem strictSelected_of_nil {n : ℕ} {corr : ℕ → ℕ → ℚ} {t : ℚ}
    (h : correlatedPairs n corr t = []) :
    strictSelected n corr t = List.range n := by
  unfold strictSelected
  have hempty : strictRemoveSet n corr t = ∅ := by
    unfold strictRemoveSet
    rw [h]
    rfl
  rw [hempty]
  simp

theorem approxSelected_of_nil {n : ℕ} {corr : ℕ → ℕ → ℚ} {t : ℚ}
    (h : correlatedPairs n corr t = []) :
    approxSelected n corr t = List.range n := by
  unfold approxSelected
  have hempty : approxRemoveSet n corr t = ∅ := by
    unfold approxRemoveSet
    rw [h]
    rfl
  rw [hempty]
  simp

/-- C1: in strict mode, for every examined correlated pair (i,j) whose two
endpoints have different mean absolute correlations (row means of the absolute
correlation matrix), the endpoint the resolver adds to the Drop Set is exactly
the one with the larger mean; and the whole Drop Set is the pointwise image of
this per-pair choice, whose means are computed once from the original matrix
and are independent of earlier removal decisions. -/
theorem strict_pick_is_larger_mean (n : ℕ) (corr : ℕ → ℕ → ℚ) (t : ℚ)
    (i j : ℕ) (_hmem : (i, j) ∈ correlatedPairs n corr t)
    (hne : colMeans n corr i ≠ colMeans n corr j) :
    colMeans n corr (strictPick n corr (i, j)) =
      max (colMeans n corr i) (colMeans n corr j) ∧
    (strictPick n corr (i, j) = i ∨ strictPick n corr (i, j) = j) ∧
    strictRemoveSet n corr t =
      ((correlatedPairs n corr t).map (strictPick n corr)).toFinset := by
  refine ⟨?_, strictPick_eq_or n corr (i, j), strictRemoveSet_eq_image n corr t⟩
  unfold strictPick
  rcases lt_or_gt_of_ne hne with h | h
  · rw [if_neg (not_lt.2 (le_of_lt h)), max_eq_right (le_of_lt h)]
  · rw [if_pos h, max_eq_left (le_of_lt h)]

/-- Witness for C1: on corrW at threshold 3/4, the pair (0,1) is examined, the
means differ, and the conclusion holds. -/
theorem strict_pick_is_larger_mean_witness :
    ((0, 1) ∈ correlatedPairs 3 corrW (3/4) ∧
      colMeans 3 corrW 0 ≠ colMeans 3 corrW 1) ∧
    (colMeans 3 corrW (strictPick 3 corrW (0, 1)) =
        max (colMeans 3 corrW 0) (colMeans 3 corrW 1) ∧
      (strictPick 3 corrW (0, 1) = 0 ∨ strictPick 3 corrW (0, 1) = 1) ∧
      strictRemoveSet 3 corrW (3/4) =
        ((correlatedPairs 3 corrW (3/4)).map (strictPick 3 corrW)).toFinset) :=
  ⟨⟨by with_unfolding_all decide, by with_unfolding_all decide⟩,
    strict_pick_is_larger_mean 3 corrW (3/4) 0 1 (by with_unfolding_all decide)
      (by with_unfolding_all decide)⟩

/-- C2: strict-mode coverage invariant — every pair (i,j) with i<j whose
absolute correlation strictly exceeds the threshold has at least one endpoint
in the Drop Set. -/
theorem strict_coverage_invariant (n : ℕ) (corr : ℕ → ℕ → ℚ) (t : ℚ)
    (i j : ℕ) (hij : i < j) (hj : j < n) (hcorr : |corr i j| > t) :
    i ∈ strictRemoveSet n corr t ∨ j ∈ strictRemoveSet n corr t := by
  have hmem : (i, j) ∈ correlatedPairs n corr t := by
    rw [mem_correlatedPairs]
    refine ⟨lt_trans hij hj, hj, ?_⟩
    unfold triuEntry absCorr
    rw [if_pos hij]
    exact hcorr
  rcases strictPick_eq_or n corr (i, j) with h | h
  · exact Or.inl (mem_strictRemoveSet.2 ⟨(i, j), hmem, h⟩)
  · exact Or.inr (mem_strictRemoveSet.2 ⟨(i, j), hmem, h⟩)

/-- Witness for C2 on corrW: |corr 0 1| = 9/10 > 3/4 and one endpoint is
dropped. -/
theorem strict_coverage_invariant_witness :
    0 < 1 ∧ 1 < 3 ∧ |corrW 0 1| > (3/4 : ℚ) ∧
    (0 ∈ strictRemoveSet 3 corrW (3/4) ∨ 1 ∈ strictRemoveSet 3 corrW (3/4)) :=
  ⟨by decide, by decide, by with_unfolding_all decide,
    strict_coverage_invariant 3 corrW (3/4) 0 1 (by decide) (by decide)
      (by with_unfolding_all decide)⟩

/-- C3: approximate-mode independence invariant — any two distinct features
both present in the Selected-Index List have absolute correlation at most the
threshold. -/
theorem approximate_independence_invariant (n : ℕ) (corr : ℕ → ℕ → ℚ) (t : ℚ)
    (i j : ℕ) (hi : i ∈ approxSelected n corr t)
    (hj : j ∈ approxSelected n corr t) (hij : i < j) :
    |corr i j| ≤ t := by
  by_contra hgt
  rw [not_le] at hgt
  unfold approxSelected at hi hj
  rw [List.mem_filter, decide_eq_true_eq, List.mem_range] at hi hj
  have hmem : (i, j) ∈ correlatedPairs n corr t := by
    rw [mem_correlatedPairs]
    refine ⟨hi.1, hj.1, ?_⟩
    unfold triuEntry absCorr
    rw [if_pos hij]
    exact hgt
  have hir : i ∉ find_maximal_independent_set (correlatedPairs n corr t) false := by
    intro hmem2
    apply hi.2
    show i ∈ (find_maximal_independent_set (correlatedPairs n corr t) false).toFinset
    exact List.mem_toFinset.2 hmem2
  have hjr : j ∉ find_maximal_independent_set (correlatedPairs n corr t) false := by
    intro hmem2
    apply hj.2
    show j ∈ (find_maximal_independent_set (correlatedPairs n corr t) false).toFinset
    exact List.mem_toFinset.2 hmem2
  exact find_mis_keep_indep (correlatedPairs n corr t) i
    (mem_mis_of_not_removed (mem_nodeUniverse_left hmem) hir) j
    (mem_mis_of_not_removed (mem_nodeUniverse_right hmem) hjr)
    (Nat.ne_of_lt hij) (Or.inl hmem)

/-- Witness for C3 on corrW: features 0 and 2 are both kept and their absolute
correlation 1/2 is at most 3/4. -/
theorem approximate_independence_invariant_witness :
    0 ∈ approxSelected 3 corrW (3/4) ∧ 2 ∈ approxSelected 3 corrW (3/4) ∧
    0 < 2 ∧ |corrW 0 2| ≤ (3/4 : ℚ) :=
  ⟨by with_unfolding_all decide, by with_unfolding_all decide, by decide,
    approximate_independence_invariant 3 corrW (3/4) 0 2
      (by with_unfolding_all decide) (by with_unfolding_all decide) (by decide)⟩

/-- C4 counterexample: with a negative threshold the zeroed diagonal and lower
triangle of the triu mask also pass the strict comparison, so the pair (0,0) —
which has i ≥ j — is examined, refuting the claim for all thresholds. -/
theorem negative_threshold_examines_diagonal :
    (0, 0) ∈ correlatedPairs 2 corrTie (-1) := by
  with_unfolding_all decide

/-- C4 amended: for every NONNEGATIVE threshold, the examined pairs are
exactly the strict-upper-triangle pairs whose absolute correlation strictly
exceeds the threshold. -/
theorem correlated_pairs_exactly_upper_triangle (n : ℕ) (corr : ℕ → ℕ → ℚ)
    (t : ℚ) (ht : 0 ≤ t) (i j : ℕ) :
    (i, j) ∈ correlatedPairs n corr t ↔ i < j ∧ j < n ∧ |corr i j| > t :=
  mem_correlatedPairs_of_nonneg ht

/-- Witness for the amended C4 at threshold 3/4 on corrW. -/
theorem correlated_pairs_exactly_upper_triangle_witness :
    (0 : ℚ) ≤ 3/4 ∧
    ((0, 1) ∈ correlatedPairs 3 corrW (3/4) ↔
      0 < 1 ∧ 1 < 3 ∧ |corrW 0 1| > (3/4 : ℚ)) :=
  ⟨by with_unfolding_all decide,
    correlated_pairs_exactly_upper_triangle 3 corrW (3/4)
      (by with_unfolding_all decide) 0 1⟩

/-- C5 counterexample: in approximate mode, raising the threshold from 1/20 to
3/25 on the (positive-semidefinite) matrix corr6 grows the Drop Set from 3 to
4 elements — the greedy maximal-independent-set heuristic is not monotone in
the edge set. -/
theorem approx_drop_not_threshold_monotone :
    (1/20 : ℚ) ≤ 3/25 ∧
    (approxRemoveSet 6 corr6 (1/20)).card < (approxRemoveSet 6 corr6 (3/25)).card := by
  with_unfolding_all decide

/-- C5 amended: in STRICT mode, raising the threshold never increases the
size of the Drop Set (approximate mode violates this, see the
counterexample). -/
theorem strict_drop_threshold_monotone (n : ℕ) (corr : ℕ → ℕ → ℚ)
    (t1 t2 : ℚ) (h : t1 ≤ t2) :
    (strictRemoveSet n corr t2).card ≤ (strictRemoveSet n corr t1).card := by
  apply Finset.card_le_card
  intro x hx
  rw [mem_strictRemoveSet] at hx ⊢
  obtain ⟨p, hp, hpx⟩ := hx
  exact ⟨p, correlatedPairs_anti h p hp, hpx⟩

/-- Witness for the amended C5 on corrW at thresholds 1/2 ≤ 19/20. -/
theorem strict_drop_threshold_monotone_witness :
    (1/2 : ℚ) ≤ 19/20 ∧
    (strictRemoveSet 3 corrW (19/20)).card ≤ (strictRemoveSet 3 corrW (1/2)).card :=
  ⟨by with_unfolding_all decide,
    strict_drop_threshold_monotone 3 corrW (1/2) (19/20)
      (by with_unfolding_all decide)⟩

/-- C6: a single-feature matrix makes the selector crash (np.corrcoef yields a
0-d array, np.triu then raises TypeError) instead of returning the full index
list [0]; the zero-feature matrix is handled and returns the empty full list. -/
theorem single_feature_input_crashes :
    (multivariate_correlation_selector 1 corrOne "strict" (3/4) "pearson").result =
      Except.error "TypeError: np.triu on 0-d correlation matrix" ∧
    (multivariate_correlation_selector 1 corrOne "strict" (3/4) "pearson").corrComputed = true ∧
    (multivariate_correlation_selector 0 corrOne "strict" (3/4) "pearson").result =
      Except.ok [] :=
  ⟨rfl, rfl, rfl⟩

/-- C7 counterexample: with a valid correlation method but an invalid
selection mode, the correlation matrix HAS been computed by the time the error
is raised — selection-mode validation does not happen before numeric
computation. -/
theorem mode_validation_after_correlation :
    (multivariate_correlation_selector 2 corrTie "bogus" (3/4) "pearson").corrComputed = true ∧
    (multivariate_correlation_selector 2 corrTie "bogus" (3/4) "pearson").result =
      Except.error "Unsupported selection mode" :=
  ⟨rfl, rfl⟩

/-- C7 amended: for non-degenerate feature counts — any count other than 1
for pearson, and other than 0, 1 or 2 for spearman, where the underlying
libraries crash even on valid parameters — the selector returns an index list
iff corr_method ∈ {pearson, spearman} and selection_mode ∈ {strict,
approximate}; an invalid corr_method errors before the correlation matrix is
computed, but with a valid corr_method the matrix is always computed — even
when selection_mode is invalid, whose validation happens only afterwards.  On
error no index list is returned. -/
theorem selector_error_characterization (n : ℕ) (corr : ℕ → ℕ → ℚ)
    (selection_mode : String) (t : ℚ) (corr_method : String)
    (hdeg : ¬(n = 1 ∨ (corr_method = "spearman" ∧ (n = 0 ∨ n = 2)))) :
    (returnsIndexList (multivariate_correlation_selector n corr selection_mode t corr_method) ↔
      ((corr_method = "pearson" ∨ corr_method = "spearman") ∧
        (selection_mode = "strict" ∨ selection_mode = "approximate"))) ∧
    ((corr_method = "pearson" ∨ corr_method = "spearman") →
      (multivariate_correlation_selector n corr selection_mode t corr_method).corrComputed = true) ∧
    (¬(corr_method = "pearson" ∨ corr_method = "spearman") →
      (multivariate_correlation_selector n corr selection_mode t corr_method).corrComputed = false) := by
  unfold multivariate_correlation_selector
  by_cases hme : corr_method = "pearson" ∨ corr_method = "spearman"
  · rw [if_pos hme, if_neg (fun h => hdeg (Or.inr ⟨h.1, Or.inl h.2⟩)),
      if_neg (fun h => h.elim (fun h1 => hdeg (Or.inl h1))
        (fun h2 => hdeg (Or.inr ⟨h2.1, Or.inr h2.2⟩)))]
    by_cases hs : selection_mode = "strict"
    · rw [if_pos hs]
      refine ⟨?_, fun _ => rfl, fun h => absurd hme h⟩
      constructor
      · intro _
        exact ⟨hme, Or.inl hs⟩
      · intro _
        exact ⟨_, rfl⟩
    · rw [if_neg hs]
      by_cases ha : selection_mode = "approximate"
      · rw [if_pos ha]
        refine ⟨?_, fun _ => rfl, fun h => absurd hme h⟩
        constructor
        · intro _
          exact ⟨hme, Or.inr ha⟩
        · intro _
          exact ⟨_, rfl⟩
      · rw [if_neg ha]
        refine ⟨?_, fun _ => rfl, fun h => absurd hme h⟩
        constructor
        · rintro ⟨l, hl⟩
          exact Except.noConfusion hl
        · rintro ⟨_, (h | h)⟩
          · exact absurd h hs
          · exact absurd h ha
  · rw [if_neg hme]
    refine ⟨?_, fun h => absurd h hme, fun _ => rfl⟩
    constructor
    · rintro ⟨l, hl⟩
      exact Except.noConfusion hl
    · rintro ⟨h, _⟩
      exact absurd h hme

/-- Witness for the amended C7 at a valid concrete configuration. -/
theorem selector_error_characterization_witness :
    ¬((2 : ℕ) = 1 ∨ ("pearson" = "spearman" ∧ ((2 : ℕ) = 0 ∨ (2 : ℕ) = 2))) ∧
    ((returnsIndexList (multivariate_correlation_selector 2 corrTie "strict" (3/4) "pearson") ↔
        (("pearson" = "pearson" ∨ "pearson" = "spearman") ∧
          ("strict" = "strict" ∨ "strict" = "approximate"))) ∧
      (("pearson" = "pearson" ∨ "pearson" = "spearman") →
        (multivariate_correlation_selector 2 corrTie "strict" (3/4) "pearson").corrComputed = true) ∧
      (¬("pearson" = "pearson" ∨ "pearson" = "spearman") →
        (multivariate_correlation_selector 2 corrTie "strict" (3/4) "pearson").corrComputed = false)) :=
  ⟨by decide,
    selector_error_characterization 2 corrTie "strict" (3/4) "pearson" (by decide)⟩

/-- C8: the variance filter in k_best mode selects exactly the indices of
columns whose population variance strictly exceeds the threshold; on the
matrix with columns [1,1,1], [1,2,3], [5,5,5] at threshold 0 it returns
exactly [1]. -/
theorem variance_k_best_selection :
    (∀ (m : List (List ℚ)) (t : ℚ),
      multivariate_variance_selector m "k_best" t =
        Except.ok ((List.range (nFeatures m)).filter
          (fun j => decide (popVar (column m j) > t)))) ∧
    multivariate_variance_selector [[1, 1, 5], [1, 2, 5], [1, 3, 5]] "k_best" 0 =
      Except.ok [1] :=
  ⟨fun _ _ => rfl, by with_unfolding_all decide⟩

/-- C9 counterexample: a single-feature matrix has no correlated pair at all,
yet the selector errors instead of returning the full index range [0], in both
modes. -/
theorem empty_redundancy_single_feature_fails :
    correlatedPairs 1 corrOne (3/4) = [] ∧
    (multivariate_correlation_selector 1 corrOne "strict" (3/4) "pearson").result ≠
      Except.ok [0] ∧
    (multivariate_correlation_selector 1 corrOne "approximate" (3/4) "pearson").result ≠
      Except.ok [0] := by
  refine ⟨?_, ?_, ?_⟩ <;> with_unfolding_all decide

/-- C9 amended: for matrices whose feature count is not 1, if no pair of
distinct features has absolute correlation strictly above the threshold, both
modes return the full original index range. -/
theorem empty_redundancy_returns_full_range (n : ℕ) (corr : ℕ → ℕ → ℚ) (t : ℚ)
    (hn : n ≠ 1)
    (h : ∀ i j, i < n → j < n → i ≠ j → ¬(|corr i j| > t)) :
    (multivariate_correlation_selector n corr "strict" t "pearson").result =
      Except.ok (List.range n) ∧
    (multivariate_correlation_selector n corr "approximate" t "pearson").result =
      Except.ok (List.range n) := by
  have hnil := correlatedPairs_eq_nil n corr t hn h
  constructor
  · rw [selector_strict_run n corr t hn]
    show Except.ok (strictSelected n corr t) = _
    rw [strictSelected_of_nil hnil]
  · rw [selector_approx_run n corr t hn]
    show Except.ok (approxSelected n corr t) = _
    rw [approxSelected_of_nil hnil]

/-- Witness for the amended C9 on the diagonal matrix corrDiag. -/
theorem empty_redundancy_returns_full_range_witness :
    (3 : ℕ) ≠ 1 ∧
    (∀ i j : ℕ, i < 3 → j < 3 → i ≠ j → ¬(|corrDiag i j| > (3/4 : ℚ))) ∧
    ((multivariate_correlation_selector 3 corrDiag "strict" (3/4) "pearson").result =
        Except.ok (List.range 3) ∧
      (multivariate_correlation_selector 3 corrDiag "approximate" (3/4) "pearson").result =
        Except.ok (List.range 3)) := by
  have hdiag : ∀ i j : ℕ, i < 3 → j < 3 → i ≠ j → ¬(|corrDiag i j| > (3/4 : ℚ)) := by
    intro i j _ _ hne
    unfold corrDiag
    rw [if_neg hne]
    with_unfolding_all decide
  exact ⟨by decide, hdiag,
    empty_redundancy_returns_full_range 3 corrDiag (3/4) (by decide) hdiag⟩

/-- C10: when the two endpoints of an examined pair (i,j) with i<j have
exactly equal row means, the higher index j is the one added to the Drop Set;
the choice is a pure function of the inputs, hence identical across repeated
runs. -/
theorem strict_tie_removes_higher_index (n : ℕ) (corr : ℕ → ℕ → ℚ) (t : ℚ)
    (i j : ℕ) (hmem : (i, j) ∈ correlatedPairs n corr t) (_hij : i < j)
    (heq : colMeans n corr i = colMeans n corr j) :
    strictPick n corr (i, j) = j ∧ j ∈ strictRemoveSet n corr t := by
  have hpick : strictPick n corr (i, j) = j := by
    unfold strictPick
    rw [if_neg (fun hc => (ne_of_gt hc) heq)]
  exact ⟨hpick, mem_strictRemoveSet.2 ⟨(i, j), hmem, hpick⟩⟩

/-- Witness for C10 on the exact-tie matrix corrTie. -/
theorem strict_tie_removes_higher_index_witness :
    ((0, 1) ∈ correlatedPairs 2 corrTie (3/4) ∧ 0 < 1 ∧
      colMeans 2 corrTie 0 = colMeans 2 corrTie 1) ∧
    (strictPick 2 corrTie (0, 1) = 1 ∧ 1 ∈ strictRemoveSet 2 corrTie (3/4)) :=
  ⟨⟨by with_unfolding_all decide, by decide, by with_unfolding_all decide⟩,
    strict_tie_removes_higher_index 2 corrTie (3/4) 0 1
      (by with_unfolding_all decide) (by decide) (by with_unfolding_all decide)⟩
